import Mathlib

/-
Verification development for the coala_client turn-loop/dispatch engine.

Shallow embedding of the Python sources:
  src/coala_client/sandbox.py      (run_sandbox_command)
  src/coala_client/llm_client.py   (LLMClient._stream_response, _execute_tool_calls)
  src/coala_client/mcp_manager.py  (MCPServerConnection, MCPManager)
  src/coala_client/cli.py          (ChatSession.execute_tool)

External effects (subprocess execution, filesystem checks, path resolution,
MCP transport, JSON decoding) are abstracted as explicit parameters; pure
control flow and string manipulation are translated line by line.
-/

/-! Python string helpers -/

/-- Characters removed by Python str.strip() with no arguments (ASCII whitespace). -/
def isPySpace (c : Char) : Bool :=
  c == ' ' || c == '\t' || c == '\n' || c == '\r' || c == '\x0b' || c == '\x0c'

/-- Python str.strip(): drop leading and trailing whitespace. -/
def pystrip (s : String) : String :=
  ⟨((s.data.dropWhile isPySpace).reverse.dropWhile isPySpace).reverse⟩

/-! Embedding of sandbox.py -/

/-- Name of the sandbox tool, SANDBOX_TOOL_NAME in sandbox.py. -/
def SANDBOX_TOOL_NAME : String := "run_command"

/-- Default timeout, DEFAULT_TIMEOUT in sandbox.py. -/
def DEFAULT_TIMEOUT : Int := 30

/-- Outcome of the external subprocess.run call inside run_sandbox_command:
either the process completed with a return code, stdout and stderr text,
or it hit the timeout (subprocess.TimeoutExpired), or some other exception
was raised (carrying its message str(e)). -/
inductive ProcOutcome where
  | completed (returncode : Int) (stdout : String) (stderr : String)
  | timedOut
  | raised (msg : String)
  deriving DecidableEq

/-- Result of the embedded run_sandbox_command: the returned string together
with a flag recording whether a subprocess was spawned (the try block with
subprocess.run was reached). -/
structure SandboxResult where
  output : String
  spawned : Bool
  deriving DecidableEq

/-- The try block of run_sandbox_command: dispatch on the subprocess outcome.
Mirrors sandbox.py lines 23-40. -/
def runResult (proc : ProcOutcome) (timeout : Int) : SandboxResult :=
  match proc with
  | .completed rc out err =>
    if rc ≠ 0 then
      let s := pystrip ("exit code " ++ toString rc ++ "\n" ++ out ++ "\n" ++ err)
      ⟨if s = "" then "exit code " ++ toString rc else s, true⟩
    else
      let s := pystrip out
      ⟨if s = "" then "(no output)" else s, true⟩
  | .timedOut => ⟨"Error: command timed out after " ++ toString timeout ++ " seconds", true⟩
  | .raised e => ⟨"Error: " ++ e, true⟩

/-- run_sandbox_command from sandbox.py. `isDir` models Path.is_dir, `resolve`
models Path(cwd).expanduser().resolve(), `proc` is the outcome the subprocess
would produce if spawned. Python truthiness of the `cwd` string argument
(`if cwd else None`) makes an empty string behave like None. -/
def run_sandbox_command (isDir : String → Bool) (resolve : String → String)
    (proc : ProcOutcome) (command : String) (timeout : Int)
    (cwd : Option String) : SandboxResult :=
  if command = "" ∨ pystrip command = "" then ⟨"Error: empty command", false⟩
  else
    let cwd_path : Option String :=
      match cwd with
      | some p => if p = "" then none else some (resolve p)
      | none => none
    match cwd_path with
    | some cp =>
      if isDir cp then runResult proc timeout
      else ⟨"Error: cwd is not a directory: " ++ cp, false⟩
    | none => runResult proc timeout

/-! Embedding of the stream aggregator, LLMClient._stream_response
(llm_client.py lines 140-184). -/

/-- One in-progress tool-call record, the dict created at llm_client.py
lines 159-163: keys "id", "type", "function.name", "function.arguments". -/
structure ToolCallEntry where
  id : String
  type : String
  name : String
  arguments : String
  deriving DecidableEq

/-- The record a fresh slot is initialised with. -/
def initEntry : ToolCallEntry := ⟨"", "function", "", ""⟩

/-- The function part of a streamed tool-call fragment (tool_call.function):
optional partial name and optional partial argument text. -/
structure FunctionFragment where
  name : Option String
  arguments : Option String
  deriving DecidableEq

/-- One streamed tool-call fragment (one element of delta.tool_calls):
a slot index plus optional id and function parts. -/
structure ToolCallFragment where
  index : Nat
  id : Option String
  function : Option FunctionFragment
  deriving DecidableEq

/-- One streamed chunk delta: optional text content and the (possibly empty)
list of tool-call fragments. Chunks with no choices contribute nothing and
are dropped from the event sequence; a missing delta.tool_calls behaves
exactly like an empty list (the for loop runs zero times either way). -/
structure Delta where
  content : Option String
  tool_calls : List ToolCallFragment
  deriving DecidableEq

/-- Python line `if tool_call.id: tool_calls_data[idx]["id"] = tool_call.id`:
a non-empty (truthy) id overwrites the stored one. -/
def updId (e : ToolCallEntry) (i : Option String) : ToolCallEntry :=
  match i with
  | some s => if s = "" then e else { e with id := s }
  | none => e

/-- Python line `if tool_call.function.name: ...["name"] = tool_call.function.name`. -/
def updName (e : ToolCallEntry) (n : Option String) : ToolCallEntry :=
  match n with
  | some s => if s = "" then e else { e with name := s }
  | none => e

/-- Python line `if tool_call.function.arguments: ...["arguments"] += ...`:
truthy argument text is concatenated onto the accumulated buffer. -/
def updArgs (e : ToolCallEntry) (a : Option String) : ToolCallEntry :=
  match a with
  | some s => if s = "" then e else { e with arguments := e.arguments ++ s }
  | none => e

/-- Apply one tool-call fragment to a slot record (llm_client.py lines 165-173):
the id update, then, when tool_call.function is present, the name and
argument updates. -/
def applyFragment (e : ToolCallEntry) (f : ToolCallFragment) : ToolCallEntry :=
  match f.function with
  | none => updId e f.id
  | some fn => updArgs (updName (updId e f.id) fn.name) fn.arguments

/-- Aggregation state of _stream_response: the accumulated text
(full_content) and the dict tool_calls_data, embedded as its key list in
insertion order plus a total map that is initEntry off the key list
(matching the create-if-absent initialisation at lines 158-163). -/
structure StreamState where
  full_content : String
  keys : List Nat
  data : Nat → ToolCallEntry

/-- Process one tool-call fragment: record the slot key (dict entry creation
for an absent index, `if idx not in tool_calls_data`) and update the slot
record. -/
def stepToolCall (st : StreamState) (f : ToolCallFragment) : StreamState :=
  { st with
    keys := if f.index ∈ st.keys then st.keys else st.keys ++ [f.index]
    data := Function.update st.data f.index (applyFragment (st.data f.index) f) }

/-- Process one chunk delta (the body of the async for loop at lines
143-173): append truthy text content, then fold over delta.tool_calls. -/
def stepDelta (st : StreamState) (d : Delta) : StreamState :=
  let st1 :=
    match d.content with
    | some s => if s = "" then st else { st with full_content := st.full_content ++ s }
    | none => st
  d.tool_calls.foldl stepToolCall st1

/-- Run the whole stream from the empty state (full_content = "",
tool_calls_data = {}). -/
def runStream (es : List Delta) : StreamState :=
  es.foldl stepDelta ⟨"", [], fun _ => initEntry⟩

/-- The assistant message dict built at llm_client.py lines 175-182; the
"content" and "tool_calls" keys are only set when truthy. -/
structure AssistantMsg where
  content : Option String
  tool_calls : Option (List ToolCallEntry)
  deriving DecidableEq

/-- Build the assistant message from the final aggregation state: content is
set only when full_content is non-empty; tool_calls is set only when the
dict is non-empty, listing the slot records in ascending key order
(`for idx in sorted(tool_calls_data.keys())`). -/
def buildAssistantMsg (st : StreamState) : AssistantMsg :=
  { content := if st.full_content = "" then none else some st.full_content
    tool_calls :=
      if st.keys = [] then none
      else some ((List.insertionSort (· ≤ ·) st.keys).map st.data) }

/-- The assistant message _stream_response appends for a given fragment
sequence. -/
def streamResponseMsg (es : List Delta) : AssistantMsg :=
  buildAssistantMsg (runStream es)

/-! Direct, non-operational descriptions of what the aggregator should
produce, written from the spec sentences, to compare with the fold above. -/

/-- All tool-call fragments of a stream, in arrival order. -/
def fragmentsOf : List Delta → List ToolCallFragment
  | [] => []
  | d :: es => d.tool_calls ++ fragmentsOf es

/-- The slot indices carried by the stream's tool-call fragments, one for
each distinct slot, listed in ascending order. -/
def slotIndexList (es : List Delta) : List Nat :=
  List.insertionSort (· ≤ ·) ((fragmentsOf es).map ToolCallFragment.index).dedup

/-- The fragments addressed to one slot, in arrival order. -/
def slotFrags (es : List Delta) (i : Nat) : List ToolCallFragment :=
  (fragmentsOf es).filter (fun f => f.index = i)

/-- The argument text a fragment carries (empty when it carries none). -/
def argTextOf (f : ToolCallFragment) : String :=
  match f.function with
  | some fn => fn.arguments.getD ""
  | none => ""

/-- The name text a fragment carries, when present. -/
def nameTextOf (f : ToolCallFragment) : Option String :=
  f.function.bind FunctionFragment.name

/-- Concatenation, in arrival order, of the argument text of a fragment
list. -/
def argConcat (gs : List ToolCallFragment) : String :=
  (gs.map argTextOf).foldl (· ++ ·) ""

/-- The last non-empty identifier carried by a fragment list, defaulting to
the empty string. -/
def lastNonEmptyId (gs : List ToolCallFragment) : String :=
  (((gs.filterMap ToolCallFragment.id).filter (fun s => ¬ s = "")).getLast?).getD ""

/-- The last non-empty tool name carried by a fragment list, defaulting to
the empty string. -/
def lastNonEmptyName (gs : List ToolCallFragment) : String :=
  (((gs.filterMap nameTextOf).filter (fun s => ¬ s = "")).getLast?).getD ""

/-- The tool-call request the spec predicts for one slot: identifier and
name are the last non-empty values streamed for that slot, the argument
text is the arrival-order concatenation of the slot's argument fragments. -/
def specEntry (es : List Delta) (i : Nat) : ToolCallEntry :=
  ⟨lastNonEmptyId (slotFrags es i), "function",
   lastNonEmptyName (slotFrags es i), argConcat (slotFrags es i)⟩

/-- The text a delta contributes to the message body (empty when it carries
none). -/
def contentTextOf (d : Delta) : String := d.content.getD ""

/-- Concatenation, in arrival order, of all text fragments of a stream. -/
def textConcat (es : List Delta) : String :=
  (es.map contentTextOf).foldl (· ++ ·) ""

/-! Embedding of the conversation and of LLMClient._execute_tool_calls
(llm_client.py lines 242-262). -/

/-- One conversation message dict, by role; an assistant message carries the
optional content and tool_calls keys exactly as _stream_response builds
them, and a tool message carries tool_call_id and content as built by
add_tool_result (llm_client.py lines 68-75). -/
inductive ChatMessage where
  | system (content : String)
  | user (content : String)
  | assistant (content : Option String) (tool_calls : Option (List ToolCallEntry))
  | tool (tool_call_id : String) (content : String)
  deriving DecidableEq

/-- The `last_msg.get("tool_calls", [])` lookup: the tool_calls list of the
last message when it is an assistant message carrying one, else []. -/
def pendingToolCalls (messages : List ChatMessage) : List ToolCallEntry :=
  match messages.getLast? with
  | some (.assistant _ (some tcs)) => tcs
  | _ => []

/-- LLMClient._execute_tool_calls, generic in the type J of decoded JSON
argument values: `decode` models json.loads returning none on
json.JSONDecodeError, `emptyObj` models the empty dict `{}` the except
branch substitutes, `exec` models the tool_executor callback. The loop
appends, for each pending tool call in order, one tool message carrying
that call's id and the executor's result (Python indexes self.messages[-1];
the callers only reach this with a non-empty message list, which every
theorem below supplies). ChatSession.process_message (cli.py lines 156-176)
repeats this loop verbatim with execute_tool as the executor. -/
def execute_tool_calls {J : Type} (decode : String → Option J) (emptyObj : J)
    (exec : String → J → String) (messages : List ChatMessage) : List ChatMessage :=
  (pendingToolCalls messages).foldl
    (fun msgs tc =>
      let args := match decode tc.arguments with
        | some j => j
        | none => emptyObj
      msgs ++ [ChatMessage.tool tc.id (exec tc.name args)])
    messages

/-! Embedding of mcp_manager.py. -/

/-- One part of an MCP call result (result.content elements at
mcp_manager.py lines 50-56): a part with a .text attribute, a binary part
with .data and .mimeType, or anything else (rendered with str). -/
inductive ResultPart where
  | textPart (text : String)
  | dataPart (mimeType : String)
  | otherPart (rendered : String)
  deriving DecidableEq

/-- How MCPServerConnection.call_tool renders one result part. -/
def renderPart : ResultPart → String
  | .textPart t => t
  | .dataPart m => "[Binary data: " ++ m ++ "]"
  | .otherPart s => s

/-- One MCP tool descriptor (the fields the manager reads). -/
structure MCPTool where
  name : String
  description : Option String
  inputSchema : Option String
  deriving DecidableEq

/-- One MCP server connection, generic in the decoded-JSON argument type J.
`sessionCall` models self.session.call_tool: it either returns the result
parts or raises (Except.error carries str(e)); `tools` is the catalog
fetched by the connection setup. -/
structure MCPServerConnection (J : Type) where
  name : String
  sessionCall : String → J → Except String (List ResultPart)
  tools : List MCPTool

/-- MCPServerConnection.call_tool (mcp_manager.py lines 36-58): forward to
the session and join the rendered parts with newlines; a session exception
propagates to the caller. -/
def MCPServerConnection.call_tool {J : Type} (c : MCPServerConnection J)
    (name : String) (args : J) : Except String String :=
  match c.sessionCall name args with
  | .error e => .error e
  | .ok parts => .ok (String.intercalate "\n" (parts.map renderPart))

/-- Python dict get on an insertion-ordered association list. -/
def dictGet {α : Type} (l : List (String × α)) (k : String) : Option α :=
  (l.find? (fun p => p.1 = k)).map (fun p => p.2)

/-- Python dict assignment d[k] = v on an insertion-ordered association
list: overwrite in place when the key exists, else append. -/
def dictInsert {α : Type} (l : List (String × α)) (k : String) (v : α) :
    List (String × α) :=
  if l.any (fun p => p.1 = k) then
    l.map (fun p => if p.1 = k then (k, v) else p)
  else l ++ [(k, v)]

/-- The MCPManager state: self.connections (a dict from server name to
connection, insertion ordered) and self._tool_to_server (a dict from tool
name to server name, embedded as a pointwise-updatable map — only its
per-key lookups are ever read). -/
structure MCPManager (J : Type) where
  connections : List (String × MCPServerConnection J)
  tool_to_server : String → Option String

/-- A freshly constructed manager: no connections, no routes. -/
def emptyManager (J : Type) : MCPManager J := ⟨[], fun _ => none⟩

/-- The externally determined outcome of bringing one configured server up
(stdio_client, ClientSession, handshake and catalog fetch): on success it
yields the session behaviour and the fetched tool catalog, otherwise the
exception raised anywhere in MCPManager.connect_server (spawn failure,
handshake error, missing exit stack, ...). -/
inductive ConnectOutcome (J : Type) where
  | ok (sessionCall : String → J → Except String (List ResultPart)) (tools : List MCPTool)
  | fail (msg : String)

/-- MCPManager.connect_server (mcp_manager.py lines 87-132): on success,
store the connection under its name and route every catalog tool name to
this server (overwriting any earlier route); on failure nothing is
registered and the exception propagates. -/
def connect_server {J : Type} (m : MCPManager J) (name : String)
    (outcome : ConnectOutcome J) : Except String (MCPManager J) :=
  match outcome with
  | .fail e => .error e
  | .ok sc tools =>
    let connection : MCPServerConnection J := ⟨name, sc, tools⟩
    .ok { connections := dictInsert m.connections name connection
          tool_to_server :=
            tools.foldl (fun f t => Function.update f t.name (some name))
              m.tool_to_server }

/-- MCPManager.connect_all_servers (mcp_manager.py lines 134-154): try each
configured server in order; a per-server exception is caught and the loop
continues with the remaining servers; returns self.connections. -/
def connect_all_servers {J : Type} (m : MCPManager J)
    (servers : List (String × ConnectOutcome J)) : MCPManager J :=
  servers.foldl
    (fun acc nv =>
      match connect_server acc nv.1 nv.2 with
      | .ok m2 => m2
      | .error _ => acc)
    m

/-- MCPManager.get_all_tools (mcp_manager.py lines 156-165): extend an empty
list with each connection's tools, in connection order. -/
def get_all_tools {J : Type} (m : MCPManager J) : List MCPTool :=
  m.connections.foldl (fun acc p => acc ++ p.2.tools) []

/-- The tail of MCPManager.call_tool once a connection is found
(mcp_manager.py lines 206-209): forward to the connection, converting a
raised exception into a textual error result. -/
def invokeVia {J : Type} (connection : MCPServerConnection J)
    (name : String) (args : J) : String :=
  match connection.call_tool name args with
  | .ok r => r
  | .error e => "Error calling tool \x27" ++ name ++ "\x27: " ++ e

/-- MCPManager.call_tool (mcp_manager.py lines 188-209): look the tool up in
the routing table (a falsy — absent or empty — server name yields the
not-found text), then the server in self.connections, then invoke. -/
def MCPManager.call_tool {J : Type} (m : MCPManager J) (name : String)
    (args : J) : String :=
  match m.tool_to_server name with
  | none => "Error: Tool \x27" ++ name ++ "\x27 not found"
  | some server_name =>
    if server_name = "" then "Error: Tool \x27" ++ name ++ "\x27 not found"
    else
      match dictGet m.connections server_name with
      | none => "Error: Server \x27" ++ server_name ++ "\x27 not connected"
      | some connection => invokeVia connection name args

/-! Embedding of ChatSession.execute_tool (cli.py lines 96-123). -/

/-- ChatSession.execute_tool: the sandbox branch fires when the requested
name is SANDBOX_TOOL_NAME and the sandbox capability is enabled, unpacking
command/timeout/cwd from the argument dict (the three arguments.get calls,
modelled by the three extraction functions) and running the sandbox;
otherwise the call goes to the MCP manager when one is present, else a
fixed error text. `isDir`, `resolve` and `proc` are the sandbox's external
effects as in run_sandbox_command. -/
def execute_tool {J : Type} (sandbox_enabled : Bool)
    (mcp_manager : Option (MCPManager J))
    (isDir : String → Bool) (resolve : String → String) (proc : ProcOutcome)
    (getCommand : J → String) (getTimeout : J → Int) (getCwd : J → Option String)
    (name : String) (arguments : J) : String :=
  if name = SANDBOX_TOOL_NAME ∧ sandbox_enabled then
    (run_sandbox_command isDir resolve proc (getCommand arguments)
      (getTimeout arguments) (getCwd arguments)).output
  else
    match mcp_manager with
    | some m => m.call_tool name arguments
    | none => "Error: No MCP servers connected and tool is not run_command"

/-! Direct descriptions of connection setup, written from the spec, to
compare with the folds above. -/

/-- The connections the spec predicts after connecting a configured server
list: one per successful outcome, in configuration order, each carrying its
session behaviour and catalog. -/
def successList {J : Type} (servers : List (String × ConnectOutcome J)) :
    List (String × MCPServerConnection J) :=
  servers.filterMap (fun nv =>
    match nv.2 with
    | .ok sc ts => some (nv.1, ⟨nv.1, sc, ts⟩)
    | .fail _ => none)

/-- The provider the spec predicts a tool name routes to: the most recently
connected successful server whose catalog carries that name. -/
def specRoute {J : Type} (servers : List (String × ConnectOutcome J))
    (t : String) : Option String :=
  (((successList servers).filter (fun p => p.2.tools.any (fun tl => tl.name = t))).map
    Prod.fst).getLast?

/-! General lemmas -/

theorem str_append_empty (s : String) : s ++ "" = s := by
  apply String.ext
  simp [String.data_append]

theorem pystrip_eq_empty_iff (s : String) :
    pystrip s = "" ↔ ∀ c ∈ s.data, isPySpace c := by
  unfold pystrip
  rw [show ("" : String) = ⟨[]⟩ from rfl, String.ext_iff]
  simp only [List.reverse_eq_nil_iff, List.dropWhile_eq_nil_iff, List.mem_reverse]
  constructor
  · intro h c hc
    rcases List.mem_append.1 (by rw [List.takeWhile_append_dropWhile (p := isPySpace)]; exact hc) with h1 | h1
    · exact List.mem_takeWhile_imp h1
    · exact h c h1
  · intro h c hc
    exact h c (List.dropWhile_subset _ hc)

/-! Sandbox claims -/

/-- C10: an empty or whitespace-only command yields "Error: empty command"
with no subprocess spawned, and a non-empty cwd that does not resolve to an
existing directory yields a textual error naming the resolved path with no
subprocess spawned (the command check runs first, so the cwd part assumes
the command is non-blank; an empty cwd string is falsy in Python and is
treated as no cwd at all). -/
theorem sandbox_validation_no_spawn (isDir : String → Bool)
    (resolve : String → String) (proc : ProcOutcome) (command : String)
    (timeout : Int) (cwd : Option String) :
    (pystrip command = "" →
      run_sandbox_command isDir resolve proc command timeout cwd =
        ⟨"Error: empty command", false⟩) ∧
    (∀ p, cwd = some p → p ≠ "" → pystrip command ≠ "" →
      isDir (resolve p) = false →
      run_sandbox_command isDir resolve proc command timeout cwd =
        ⟨"Error: cwd is not a directory: " ++ resolve p, false⟩) := by
  constructor
  · intro h
    unfold run_sandbox_command
    rw [if_pos (Or.inr h)]
  · intro p hp hne hcmd hdir
    unfold run_sandbox_command
    rw [if_neg]
    · subst hp
      simp only [if_neg hne, hdir, Bool.false_eq_true, if_false]
    · rintro (h | h)
      · subst h
        exact hcmd rfl
      · exact hcmd h

theorem sandbox_validation_no_spawn_witness :
    run_sandbox_command (fun _ => false) id ProcOutcome.timedOut "   " 30 none =
      ⟨"Error: empty command", false⟩ ∧
    run_sandbox_command (fun _ => false) id ProcOutcome.timedOut "ls" 30 (some "/x") =
      ⟨"Error: cwd is not a directory: /x", false⟩ := by
  constructor
  · exact (sandbox_validation_no_spawn (fun _ => false) id ProcOutcome.timedOut
      "   " 30 none).1 (by decide)
  · exact (sandbox_validation_no_spawn (fun _ => false) id ProcOutcome.timedOut
      "ls" 30 (some "/x")).2 "/x" rfl (by decide) (by decide) rfl

theorem pystrip_exit_prefix_ne (rc : Int) (out err : String) :
    pystrip ("exit code " ++ toString rc ++ "\n" ++ out ++ "\n" ++ err) ≠ "" := by
  intro h
  rw [pystrip_eq_empty_iff] at h
  have he : ('e' : Char) ∈ ("exit code " ++ toString rc ++ "\n" ++ out ++ "\n" ++ err).data := by
    simp only [String.data_append, List.append_assoc]
    exact List.mem_append_left _ (by decide)
  exact absurd (h 'e' he) (by decide)

theorem runResult_completed (rc : Int) (out err : String) (timeout : Int) :
    runResult (.completed rc out err) timeout =
      if rc ≠ 0 then
        ⟨if pystrip ("exit code " ++ toString rc ++ "\n" ++ out ++ "\n" ++ err) = ""
         then "exit code " ++ toString rc
         else pystrip ("exit code " ++ toString rc ++ "\n" ++ out ++ "\n" ++ err), true⟩
      else
        ⟨if pystrip out = "" then "(no output)" else pystrip out, true⟩ := rfl

/-- C9 counterexample: on a zero exit with non-empty stderr the function
returns the stripped stdout alone, so the result is not the combined
standard-output/standard-error text — the stderr text does not occur in it
at all. -/
theorem sandbox_zero_exit_drops_stderr :
    (run_sandbox_command (fun _ => true) id
        (ProcOutcome.completed 0 "ok" "warn") "echo hi" 30 none).output = "ok" ∧
    ¬ List.IsInfix "warn".data "ok".data := by
  constructor
  · decide
  · decide

/-- C9 amended: for every command whose stripped text is non-empty and
whose cwd, when given and non-empty, resolves to an existing directory,
run_sandbox_command never raises; on non-zero exit it returns the
whitespace-stripped combined stdout/stderr prefixed with the exit code; on
zero exit it returns the whitespace-stripped stdout alone (stderr is
discarded), or "(no output)" when that is empty; on timeout a textual
timeout error naming the timeout; on any other exception "Error: " plus the
exception text. -/
theorem run_sandbox_result_cases (isDir : String → Bool)
    (resolve : String → String) (proc : ProcOutcome) (command : String)
    (timeout : Int) (cwd : Option String)
    (hc : pystrip command ≠ "")
    (hcwd : ∀ p, cwd = some p → p ≠ "" → isDir (resolve p) = true) :
    (∀ rc out err, proc = .completed rc out err → rc ≠ 0 →
      run_sandbox_command isDir resolve proc command timeout cwd =
        ⟨pystrip ("exit code " ++ toString rc ++ "\n" ++ out ++ "\n" ++ err), true⟩) ∧
    (∀ out err, proc = .completed 0 out err → pystrip out = "" →
      run_sandbox_command isDir resolve proc command timeout cwd =
        ⟨"(no output)", true⟩) ∧
    (∀ out err, proc = .completed 0 out err → pystrip out ≠ "" →
      run_sandbox_command isDir resolve proc command timeout cwd =
        ⟨pystrip out, true⟩) ∧
    (proc = .timedOut →
      run_sandbox_command isDir resolve proc command timeout cwd =
        ⟨"Error: command timed out after " ++ toString timeout ++ " seconds", true⟩) ∧
    (∀ e, proc = .raised e →
      run_sandbox_command isDir resolve proc command timeout cwd =
        ⟨"Error: " ++ e, true⟩) := by
  have hpass : run_sandbox_command isDir resolve proc command timeout cwd =
      runResult proc timeout := by
    unfold run_sandbox_command
    rw [if_neg (by
      rintro (h | h)
      · exact hc (by rw [h]; rfl)
      · exact hc h)]
    cases cwd with
    | none => rfl
    | some p =>
      by_cases hp : p = ""
      · simp [hp]
      · simp only [if_neg hp, hcwd p rfl hp, if_true]
  refine ⟨?_, ?_, ?_, ?_, ?_⟩
  · intro rc out err hproc hrc
    rw [hpass, hproc, runResult_completed, if_pos hrc,
      if_neg (pystrip_exit_prefix_ne rc out err)]
  · intro out err hproc hout
    rw [hpass, hproc, runResult_completed,
      if_neg (show ¬ (0 : Int) ≠ 0 by decide), if_pos hout]
  · intro out err hproc hout
    rw [hpass, hproc, runResult_completed,
      if_neg (show ¬ (0 : Int) ≠ 0 by decide), if_neg hout]
  · intro hproc
    rw [hpass, hproc]
    rfl
  · intro e hproc
    rw [hpass, hproc]
    rfl

theorem foldl_snoc_eq_map {α β : Type} (f : List α → β → List α) (g : β → α)
    (hf : ∀ ms tc, f ms tc = ms ++ [g tc]) (l : List β) (acc : List α) :
    l.foldl f acc = acc ++ l.map g := by
  induction l generalizing acc with
  | nil => simp
  | cons x xs ih => simp [hf, ih]

theorem run_sandbox_result_cases_witness :
    run_sandbox_command (fun _ => true) id (ProcOutcome.completed 0 " ok " "w")
      "echo" 30 (some "/d") = ⟨"ok", true⟩ := by
  have h := run_sandbox_result_cases (fun _ => true) id
    (ProcOutcome.completed 0 " ok " "w") "echo" 30 (some "/d")
    (by decide) (by intro p hp hne; rfl)
  rw [h.2.2.1 " ok " "w" rfl (by decide)]
  decide

/-! Turn engine claims: executing one batch of pending tool calls -/

theorem execute_tool_calls_eq {J : Type} (decode : String → Option J)
    (emptyObj : J) (exec : String → J → String) (ms : List ChatMessage)
    (c : Option String) (tcs : List ToolCallEntry) :
    execute_tool_calls decode emptyObj exec (ms ++ [.assistant c (some tcs)]) =
      (ms ++ [.assistant c (some tcs)]) ++
        tcs.map (fun tc => ChatMessage.tool tc.id
          (exec tc.name ((decode tc.arguments).getD emptyObj))) := by
  unfold execute_tool_calls
  have hp : pendingToolCalls (ms ++ [.assistant c (some tcs)]) = tcs := by
    unfold pendingToolCalls
    rw [List.getLast?_concat]
  rw [hp]
  apply foldl_snoc_eq_map
  intro msgs tc
  cases h : decode tc.arguments <;> simp [h]

/-- C2: executing the batch of N pending tool-call requests of the last
assistant message appends exactly the N tool messages, the i-th carrying
the i-th request's identifier, in request order, as one contiguous block
after the existing conversation. -/
theorem execute_batch_appends_tool_messages {J : Type} (decode : String → Option J)
    (emptyObj : J) (exec : String → J → String) (ms : List ChatMessage)
    (c : Option String) (tcs : List ToolCallEntry) :
    execute_tool_calls decode emptyObj exec (ms ++ [.assistant c (some tcs)]) =
      (ms ++ [.assistant c (some tcs)]) ++
        tcs.map (fun tc => ChatMessage.tool tc.id
          (exec tc.name ((decode tc.arguments).getD emptyObj))) :=
  execute_tool_calls_eq decode emptyObj exec ms c tcs

/-- C5: a tool-call request whose raw argument text fails to decode is
executed with the empty argument object; its tool message is still
appended and the remaining requests are processed as usual — the decode
failure aborts nothing. -/
theorem malformed_arguments_use_empty_object {J : Type}
    (decode : String → Option J) (emptyObj : J) (exec : String → J → String)
    (ms : List ChatMessage) (c : Option String)
    (pre post : List ToolCallEntry) (tc : ToolCallEntry)
    (h : decode tc.arguments = none) :
    execute_tool_calls decode emptyObj exec
        (ms ++ [.assistant c (some (pre ++ tc :: post))]) =
      (ms ++ [.assistant c (some (pre ++ tc :: post))]) ++
        pre.map (fun tc2 => ChatMessage.tool tc2.id
          (exec tc2.name ((decode tc2.arguments).getD emptyObj))) ++
        [ChatMessage.tool tc.id (exec tc.name emptyObj)] ++
        post.map (fun tc2 => ChatMessage.tool tc2.id
          (exec tc2.name ((decode tc2.arguments).getD emptyObj))) := by
  rw [execute_tool_calls_eq]
  simp [h, List.append_assoc]

theorem malformed_arguments_witness :
    execute_tool_calls (fun _ => (none : Option Unit)) () (fun n _ => n ++ ":done")
        [ChatMessage.user "hi",
         ChatMessage.assistant none (some [⟨"id1", "function", "t", "\x7bbad json"⟩])] =
      [ChatMessage.user "hi",
       ChatMessage.assistant none (some [⟨"id1", "function", "t", "\x7bbad json"⟩]),
       ChatMessage.tool "id1" "t:done"] := by
  have h := malformed_arguments_use_empty_object
    (fun _ => (none : Option Unit)) () (fun n _ => n ++ ":done")
    [ChatMessage.user "hi"] none [] [] ⟨"id1", "function", "t", "\x7bbad json"⟩ rfl
  simpa using h

/-! Routing claims -/

/-- C3: MCPManager.call_tool returns a string in every case and never
raises (the embedding is a total function into String): a name absent from
the routing table yields the not-found error text, and a routed connection
whose invocation raises an exception yields an error text carrying the
exception message. -/
theorem call_tool_never_raises {J : Type} (m : MCPManager J) (name : String)
    (args : J) :
    (m.tool_to_server name = none →
      m.call_tool name args = "Error: Tool \x27" ++ name ++ "\x27 not found") ∧
    (∀ sn conn e, m.tool_to_server name = some sn → sn ≠ "" →
      dictGet m.connections sn = some conn →
      conn.sessionCall name args = .error e →
      m.call_tool name args = "Error calling tool \x27" ++ name ++ "\x27: " ++ e) := by
  constructor
  · intro h
    unfold MCPManager.call_tool
    rw [h]
  · intro sn conn e hroute hne hconn herr
    simp only [MCPManager.call_tool, hroute, if_neg hne, hconn, invokeVia,
      MCPServerConnection.call_tool, herr]

theorem call_tool_never_raises_witness :
    MCPManager.call_tool (emptyManager Unit) "ghost" () =
      "Error: Tool \x27ghost\x27 not found" ∧
    MCPManager.call_tool
        ⟨[("s", ⟨"s", fun _ _ => Except.error "boom", []⟩)],
         fun t => if t = "t" then some "s" else none⟩
        "t" () = "Error calling tool \x27t\x27: boom" := by
  constructor
  · exact (call_tool_never_raises (emptyManager Unit) "ghost" ()).1 rfl
  · exact (call_tool_never_raises
      ⟨[("s", ⟨"s", fun _ _ => Except.error "boom", []⟩)],
       fun t => if t = "t" then some "s" else none⟩ "t" ()).2
      "s" ⟨"s", fun _ _ => Except.error "boom", []⟩ "boom"
      rfl (by decide) rfl rfl

/-- C8: a call named run_command is handled by the local sandbox executor
whenever the sandbox capability is enabled — shadowing any provider-hosted
tool of that name — and with the sandbox disabled it is routed through the
MCP manager like any ordinary provider tool. -/
theorem local_executor_precedence {J : Type} (mcp_manager : Option (MCPManager J))
    (isDir : String → Bool) (resolve : String → String) (proc : ProcOutcome)
    (getCommand : J → String) (getTimeout : J → Int) (getCwd : J → Option String)
    (args : J) :
    (execute_tool true mcp_manager isDir resolve proc getCommand getTimeout getCwd
        SANDBOX_TOOL_NAME args =
      (run_sandbox_command isDir resolve proc (getCommand args) (getTimeout args)
        (getCwd args)).output) ∧
    (∀ m, mcp_manager = some m →
      execute_tool false mcp_manager isDir resolve proc getCommand getTimeout getCwd
          SANDBOX_TOOL_NAME args =
        m.call_tool SANDBOX_TOOL_NAME args) := by
  constructor
  · unfold execute_tool
    rw [if_pos ⟨rfl, rfl⟩]
  · intro m hm
    unfold execute_tool
    rw [if_neg (by simp), hm]

theorem local_executor_precedence_witness :
    execute_tool true (some (emptyManager Unit)) (fun _ => true) id
      (ProcOutcome.completed 0 "hi" "") (fun _ => "echo hi") (fun _ => 30)
      (fun _ => none) SANDBOX_TOOL_NAME () = "hi" ∧
    execute_tool false (some (emptyManager Unit)) (fun _ => true) id
      (ProcOutcome.completed 0 "hi" "") (fun _ => "echo hi") (fun _ => 30)
      (fun _ => none) SANDBOX_TOOL_NAME () =
        "Error: Tool \x27run_command\x27 not found" := by
  have h := local_executor_precedence (some (emptyManager Unit)) (fun _ => true) id
    (ProcOutcome.completed 0 "hi" "") (fun _ => "echo hi") (fun _ => 30)
    (fun _ => none) ()
  constructor
  · rw [h.1]
    decide
  · rw [h.2 (emptyManager Unit) rfl]
    rfl

/-! Connection setup claims -/

theorem connect_all_nil {J : Type} (m : MCPManager J) :
    connect_all_servers m [] = m := rfl

theorem connect_all_cons_fail {J : Type} (m : MCPManager J) (n : String)
    (e : String) (rest : List (String × ConnectOutcome J)) :
    connect_all_servers m ((n, ConnectOutcome.fail e) :: rest) =
      connect_all_servers m rest := rfl

theorem connect_all_cons_ok {J : Type} (m : MCPManager J) (n : String)
    (sc : String → J → Except String (List ResultPart)) (ts : List MCPTool)
    (rest : List (String × ConnectOutcome J)) :
    connect_all_servers m ((n, ConnectOutcome.ok sc ts) :: rest) =
      connect_all_servers
        ⟨dictInsert m.connections n ⟨n, sc, ts⟩,
         ts.foldl (fun f t => Function.update f t.name (some n)) m.tool_to_server⟩
        rest := rfl

theorem successList_cons_fail {J : Type} (n : String) (e : String)
    (rest : List (String × ConnectOutcome J)) :
    successList ((n, ConnectOutcome.fail e) :: rest) = successList rest := rfl

theorem successList_cons_ok {J : Type} (n : String)
    (sc : String → J → Except String (List ResultPart)) (ts : List MCPTool)
    (rest : List (String × ConnectOutcome J)) :
    successList ((n, ConnectOutcome.ok sc ts) :: rest) =
      (n, ⟨n, sc, ts⟩) :: successList rest := rfl

theorem dictInsert_of_not_mem {α : Type} (l : List (String × α)) (k : String)
    (v : α) (h : ∀ p ∈ l, p.1 ≠ k) : dictInsert l k v = l ++ [(k, v)] := by
  unfold dictInsert
  rw [if_neg]
  simp only [List.any_eq_true, decide_eq_true_eq]
  rintro ⟨p, hp, hk⟩
  exact h p hp hk

theorem tools_foldl_route (tools : List MCPTool) (name : String)
    (f0 : String → Option String) (t : String) :
    (tools.foldl (fun (f : String → Option String) tl =>
      Function.update f tl.name (some name)) f0) t =
      if tools.any (fun tl => tl.name = t) then some name else f0 t := by
  induction tools generalizing f0 with
  | nil => simp
  | cons x xs ih =>
    rw [List.foldl_cons, ih, List.any_cons]
    by_cases hx : x.name = t
    · by_cases hxs : (xs.any fun tl => decide (tl.name = t)) = true
      · rw [if_pos hxs, if_pos (by simp [hx, hxs])]
      · rw [if_neg hxs, Function.update_apply, if_pos hx.symm, if_pos (by simp [hx])]
    · by_cases hxs : (xs.any fun tl => decide (tl.name = t)) = true
      · rw [if_pos hxs, if_pos (by simp [hxs])]
      · rw [if_neg hxs, Function.update_apply, if_neg (fun hc => hx hc.symm),
          if_neg (by simp [hx, hxs])]

theorem connect_all_connections {J : Type}
    (servers : List (String × ConnectOutcome J)) (m : MCPManager J)
    (hdisj : ∀ s ∈ servers.map Prod.fst, ∀ p ∈ m.connections, p.1 ≠ s)
    (hnd : (servers.map Prod.fst).Nodup) :
    (connect_all_servers m servers).connections =
      m.connections ++ successList servers := by
  induction servers generalizing m with
  | nil => simp [connect_all_nil, successList]
  | cons nv rest ih =>
    obtain ⟨n, outcome⟩ := nv
    cases outcome with
    | fail e =>
      rw [connect_all_cons_fail, successList_cons_fail]
      exact ih m (fun s hs => hdisj s (by simp [hs])) (by simpa using hnd.of_cons)
    | ok sc ts =>
      rw [connect_all_cons_ok, successList_cons_ok]
      have hins : dictInsert m.connections n ⟨n, sc, ts⟩ =
          m.connections ++ [(n, ⟨n, sc, ts⟩)] :=
        dictInsert_of_not_mem _ _ _ (fun p hp => hdisj n (by simp) p hp)
      have hrest := ih
        ⟨dictInsert m.connections n ⟨n, sc, ts⟩,
         ts.foldl (fun f t => Function.update f t.name (some n)) m.tool_to_server⟩
        (by
          intro s hs p hp
          simp only [hins, List.mem_append, List.mem_singleton] at hp
          rcases hp with hp | hp
          · exact hdisj s (by simp [hs]) p hp
          · subst hp
            intro hc
            have hn : n = s := hc
            have hnotin : n ∉ List.map Prod.fst rest := by
              simp only [List.map_cons, List.nodup_cons] at hnd
              exact hnd.1
            rw [hn] at hnotin
            exact hnotin hs)
        (by
          simp only [List.map_cons, List.nodup_cons] at hnd
          exact hnd.2)
      rw [hrest]
      simp [hins]

theorem getLast?_cons_or {α : Type} (a : α) (l : List α) :
    (a :: l).getLast? = l.getLast?.or (some a) := by
  cases l with
  | nil => rfl
  | cons b bs =>
    rw [List.getLast?_cons_cons]
    cases h : (b :: bs).getLast? with
    | some x => rfl
    | none =>
      exfalso
      have := List.getLast?_isSome (l := b :: bs)
      rw [h] at this
      simp at this

theorem specRoute_cons_ok {J : Type} (n : String)
    (sc : String → J → Except String (List ResultPart)) (ts : List MCPTool)
    (rest : List (String × ConnectOutcome J)) (t : String) :
    specRoute ((n, ConnectOutcome.ok sc ts) :: rest) t =
      if (ts.any fun tl => tl.name = t) = true
      then (specRoute rest t).or (some n)
      else specRoute rest t := by
  unfold specRoute
  rw [successList_cons_ok, List.filter_cons]
  by_cases hts : (ts.any fun tl => decide (tl.name = t)) = true
  · rw [if_pos hts, if_pos hts, List.map_cons, getLast?_cons_or]
  · rw [if_neg hts, if_neg hts]

theorem connect_all_route {J : Type} (servers : List (String × ConnectOutcome J))
    (m : MCPManager J) (t : String) :
    (connect_all_servers m servers).tool_to_server t =
      (specRoute servers t).or (m.tool_to_server t) := by
  induction servers generalizing m with
  | nil => rfl
  | cons nv rest ih =>
    obtain ⟨n, outcome⟩ := nv
    cases outcome with
    | fail e =>
      rw [connect_all_cons_fail, ih]
      rfl
    | ok sc ts =>
      rw [connect_all_cons_ok, ih, specRoute_cons_ok]
      have hproj : (⟨dictInsert m.connections n ⟨n, sc, ts⟩,
          ts.foldl (fun (f : String → Option String) t2 =>
            Function.update f t2.name (some n)) m.tool_to_server⟩ :
            MCPManager J).tool_to_server t =
          if (ts.any fun tl => tl.name = t) = true then some n
          else m.tool_to_server t :=
        tools_foldl_route ts n m.tool_to_server t
      rw [hproj]
      by_cases hts : (ts.any fun tl => decide (tl.name = t)) = true
      · rw [if_pos hts, if_pos hts, Option.or_assoc]
        cases specRoute rest t <;> rfl
      · rw [if_neg hts, if_neg hts]

theorem mem_foldl_append {α β : Type} (g : β → List α) (l : List β)
    (acc : List α) (x : α) :
    x ∈ l.foldl (fun a b => a ++ g b) acc ↔ x ∈ acc ∨ ∃ b ∈ l, x ∈ g b := by
  induction l generalizing acc with
  | nil => simp
  | cons y ys ih =>
    rw [List.foldl_cons, ih]
    simp [or_assoc]

theorem successList_name_eq_fst {J : Type}
    (servers : List (String × ConnectOutcome J)) :
    ∀ p ∈ successList servers, p.2.name = p.1 ∧ p.1 ∈ servers.map Prod.fst := by
  intro p hp
  rcases List.mem_filterMap.mp hp with ⟨nv, hnv, hf⟩
  cases h2 : nv.2 with
  | ok sc ts =>
    rw [h2] at hf
    have hpv : p = (nv.1, ⟨nv.1, sc, ts⟩) := by
      simpa using hf.symm
    subst hpv
    exact ⟨rfl, List.mem_map.mpr ⟨nv, hnv, rfl⟩⟩
  | fail e =>
    rw [h2] at hf
    simp at hf

/-- C6: connecting a configured server list propagates no exception (the
embedding is a total function), registers exactly the servers whose setup
succeeded, in configuration order, and the merged tool catalog holds
exactly the tools of those successful connections. -/
theorem connect_all_failure_isolation {J : Type}
    (servers : List (String × ConnectOutcome J))
    (hnd : (servers.map Prod.fst).Nodup) :
    (connect_all_servers (emptyManager J) servers).connections =
      successList servers ∧
    (∀ tool, tool ∈ get_all_tools (connect_all_servers (emptyManager J) servers) ↔
      ∃ p ∈ successList servers, tool ∈ p.2.tools) := by
  have hconn : (connect_all_servers (emptyManager J) servers).connections =
      successList servers := by
    have h := connect_all_connections servers (emptyManager J)
      (by
        intro s hs p hp
        simp [emptyManager] at hp) hnd
    simpa [emptyManager] using h
  refine ⟨hconn, ?_⟩
  intro tool
  unfold get_all_tools
  rw [hconn]
  simpa using mem_foldl_append
    (fun (p : String × MCPServerConnection J) => p.2.tools)
    (successList servers) [] tool

theorem connect_all_failure_isolation_witness :
    (connect_all_servers (emptyManager Unit)
        [("bad", ConnectOutcome.fail "spawn error"),
         ("good", ConnectOutcome.ok (fun _ _ => Except.ok []) [⟨"t1", none, none⟩])]).connections =
      [("good", ⟨"good", fun _ _ => Except.ok [], [⟨"t1", none, none⟩]⟩)] ∧
    (⟨"t1", none, none⟩ : MCPTool) ∈ get_all_tools (connect_all_servers (emptyManager Unit)
        [("bad", ConnectOutcome.fail "spawn error"),
         ("good", ConnectOutcome.ok (fun _ _ => Except.ok []) [⟨"t1", none, none⟩])]) := by
  have h := connect_all_failure_isolation
    (J := Unit)
    [("bad", ConnectOutcome.fail "spawn error"),
     ("good", ConnectOutcome.ok (fun _ _ => Except.ok []) [⟨"t1", none, none⟩])]
    (by decide)
  exact ⟨h.1, (h.2 ⟨"t1", none, none⟩).2
    ⟨("good", ⟨"good", fun _ _ => Except.ok [], [⟨"t1", none, none⟩]⟩),
     List.mem_singleton.mpr rfl, List.mem_singleton.mpr rfl⟩⟩

/-- C7: after connection setup, a tool name exported by several successful
providers routes to the most recently registered one — last registration
wins, silently shadowing the earlier ones (specRoute picks the last
successful server whose catalog carries the name) — and call_tool with that
name invokes exactly that provider's connection; no ambiguity error exists
anywhere on this path. -/
theorem last_registration_wins {J : Type}
    (servers : List (String × ConnectOutcome J)) (t : String) (args : J)
    (hnd : (servers.map Prod.fst).Nodup)
    (hne : ∀ s ∈ servers.map Prod.fst, s ≠ "") :
    (connect_all_servers (emptyManager J) servers).tool_to_server t =
      specRoute servers t ∧
    (∀ sn, specRoute servers t = some sn →
      ∃ conn,
        dictGet (connect_all_servers (emptyManager J) servers).connections sn =
          some conn ∧
        conn.name = sn ∧
        (connect_all_servers (emptyManager J) servers).call_tool t args =
          invokeVia conn t args) := by
  have hroute : (connect_all_servers (emptyManager J) servers).tool_to_server t =
      specRoute servers t := by
    rw [connect_all_route]
    exact Option.or_none
  have hconn : (connect_all_servers (emptyManager J) servers).connections =
      successList servers := by
    have h := connect_all_connections servers (emptyManager J)
      (by
        intro s hs p hp
        simp [emptyManager] at hp) hnd
    simpa [emptyManager] using h
  refine ⟨hroute, ?_⟩
  intro sn hsn
  have hsn_mem : sn ∈ ((successList servers).filter
      (fun p => p.2.tools.any fun tl => tl.name = t)).map Prod.fst := by
    rcases List.getLast?_eq_some_iff.mp hsn with ⟨ys, hys⟩
    rw [hys]
    simp
  rcases List.mem_map.mp hsn_mem with ⟨q, hq_filter, hq_fst⟩
  have hq_mem : q ∈ successList servers := List.mem_of_mem_filter hq_filter
  have hsn_ne : sn ≠ "" := by
    have := (successList_name_eq_fst servers q hq_mem).2
    rw [hq_fst] at this
    exact hne sn this
  cases hfind : (successList servers).find? (fun p => p.1 = sn) with
  | none =>
    exfalso
    have hall := List.find?_eq_none.mp hfind
    exact absurd (by simpa using hq_fst) (by simpa using hall q hq_mem)
  | some q2 =>
    have hq2_mem := List.mem_of_find?_eq_some hfind
    have hq2_fst : q2.1 = sn := by simpa using List.find?_some hfind
    refine ⟨q2.2, ?_, ?_, ?_⟩
    · rw [hconn]
      unfold dictGet
      rw [hfind]
      rfl
    · rw [(successList_name_eq_fst servers q2 hq2_mem).1, hq2_fst]
    · simp only [MCPManager.call_tool, hroute, hsn, if_neg hsn_ne, hconn,
        dictGet, hfind, Option.map_some']

theorem last_registration_wins_witness :
    (connect_all_servers (emptyManager Unit)
        [("s1", ConnectOutcome.ok (fun _ _ => Except.ok [ResultPart.textPart "one"])
            [⟨"t", none, none⟩]),
         ("s2", ConnectOutcome.ok (fun _ _ => Except.ok [ResultPart.textPart "two"])
            [⟨"t", none, none⟩])]).tool_to_server "t" = some "s2" ∧
    (connect_all_servers (emptyManager Unit)
        [("s1", ConnectOutcome.ok (fun _ _ => Except.ok [ResultPart.textPart "one"])
            [⟨"t", none, none⟩]),
         ("s2", ConnectOutcome.ok (fun _ _ => Except.ok [ResultPart.textPart "two"])
            [⟨"t", none, none⟩])]).call_tool "t" () = "two" := by
  have h := last_registration_wins
    (J := Unit)
    [("s1", ConnectOutcome.ok (fun _ _ => Except.ok [ResultPart.textPart "one"])
        [⟨"t", none, none⟩]),
     ("s2", ConnectOutcome.ok (fun _ _ => Except.ok [ResultPart.textPart "two"])
        [⟨"t", none, none⟩])]
    "t" () (by decide) (by decide)
  refine ⟨h.1, ?_⟩
  obtain ⟨conn, hdict, hname, hcall⟩ := h.2 "s2" rfl
  have hconn : conn = ⟨"s2", fun _ _ => Except.ok [ResultPart.textPart "two"],
      [⟨"t", none, none⟩]⟩ := by
    have h2 : dictGet (connect_all_servers (emptyManager Unit)
        [("s1", ConnectOutcome.ok (fun _ _ => Except.ok [ResultPart.textPart "one"])
            [⟨"t", none, none⟩]),
         ("s2", ConnectOutcome.ok (fun _ _ => Except.ok [ResultPart.textPart "two"])
            [⟨"t", none, none⟩])]).connections "s2" =
        some ⟨"s2", fun _ _ => Except.ok [ResultPart.textPart "two"],
          [⟨"t", none, none⟩]⟩ := rfl
    rw [h2] at hdict
    exact (Option.some.injEq _ _ ▸ hdict).symm
  rw [hcall, hconn]
  rfl

/-! Stream aggregator claims -/

theorem stepToolCall_full_content (fs : List ToolCallFragment) (st : StreamState) :
    (fs.foldl stepToolCall st).full_content = st.full_content := by
  induction fs generalizing st with
  | nil => rfl
  | cons f fs ih =>
    rw [List.foldl_cons, ih]
    rfl

theorem fragmentsOf_cons (d : Delta) (ds : List Delta) :
    fragmentsOf (d :: ds) = d.tool_calls ++ fragmentsOf ds := rfl

theorem foldl_stepDelta_content (es : List Delta) (st : StreamState) :
    (es.foldl stepDelta st).full_content =
      (es.map contentTextOf).foldl (· ++ ·) st.full_content := by
  induction es generalizing st with
  | nil => rfl
  | cons d ds ih =>
    rw [List.foldl_cons, List.map_cons, List.foldl_cons, ih]
    congr 1
    cases hc : d.content with
    | none => simp [stepDelta, hc, stepToolCall_full_content, contentTextOf, str_append_empty]
    | some s =>
      by_cases hs : s = ""
      · simp [stepDelta, hc, hs, stepToolCall_full_content, contentTextOf, str_append_empty]
      · simp [stepDelta, hc, hs, stepToolCall_full_content, contentTextOf]

theorem runStream_content (es : List Delta) :
    (runStream es).full_content = textConcat es :=
  foldl_stepDelta_content es ⟨"", [], fun _ => initEntry⟩

theorem foldl_append_all_empty (l : List String) (a : String)
    (h : ∀ x ∈ l, x = "") : l.foldl (· ++ ·) a = a := by
  induction l generalizing a with
  | nil => rfl
  | cons x xs ih =>
    rw [List.foldl_cons, h x (by simp), str_append_empty]
    exact ih a (fun y hy => h y (by simp [hy]))

/-- C4 counterexample: a fragment sequence with no text fragments (here the
empty stream) yields an assistant message whose content field is absent
(none), not a present empty string as the claim requires. -/
theorem no_text_content_absent_counterexample :
    (streamResponseMsg []).content = none ∧
    (streamResponseMsg []).content ≠ some "" := by
  constructor
  · rfl
  · decide

/-- C4 amended: for every fragment sequence containing no (truthy) text
fragment, the aggregator omits the content key entirely — the assistant
message's content field is absent (none), not an empty string; callers
cannot rely on its presence. -/
theorem no_text_yields_absent_content (es : List Delta)
    (h : ∀ d ∈ es, d.content = none ∨ d.content = some "") :
    (streamResponseMsg es).content = none := by
  have hc : (runStream es).full_content = "" := by
    rw [runStream_content]
    refine foldl_append_all_empty _ _ ?_
    intro x hx
    rcases List.mem_map.mp hx with ⟨d, hd, rfl⟩
    rcases h d hd with h1 | h1 <;> simp [contentTextOf, h1]
  simp [streamResponseMsg, buildAssistantMsg, hc]

theorem no_text_yields_absent_content_witness :
    (streamResponseMsg [⟨none, []⟩, ⟨some "", []⟩]).content = none :=
  no_text_yields_absent_content [⟨none, []⟩, ⟨some "", []⟩] (by decide)

theorem foldl_stepToolCall_keys (fs : List ToolCallFragment) (st : StreamState) :
    (fs.foldl stepToolCall st).keys =
      fs.foldl (fun ks f => if f.index ∈ ks then ks else ks ++ [f.index]) st.keys := by
  induction fs generalizing st with
  | nil => rfl
  | cons f fs ih =>
    rw [List.foldl_cons, List.foldl_cons, ih]
    rfl

theorem foldl_stepToolCall_data (fs : List ToolCallFragment) (st : StreamState) :
    (fs.foldl stepToolCall st).data =
      fs.foldl (fun d f => Function.update d f.index (applyFragment (d f.index) f))
        st.data := by
  induction fs generalizing st with
  | nil => rfl
  | cons f fs ih =>
    rw [List.foldl_cons, List.foldl_cons, ih]
    rfl

theorem stepDelta_keys (st : StreamState) (d : Delta) :
    (stepDelta st d).keys =
      d.tool_calls.foldl (fun ks f => if f.index ∈ ks then ks else ks ++ [f.index])
        st.keys := by
  cases hc : d.content with
  | none => simp [stepDelta, hc, foldl_stepToolCall_keys]
  | some s =>
    by_cases hs : s = "" <;> simp [stepDelta, hc, hs, foldl_stepToolCall_keys]

theorem stepDelta_data (st : StreamState) (d : Delta) :
    (stepDelta st d).data =
      d.tool_calls.foldl
        (fun d2 f => Function.update d2 f.index (applyFragment (d2 f.index) f))
        st.data := by
  cases hc : d.content with
  | none => simp [stepDelta, hc, foldl_stepToolCall_data]
  | some s =>
    by_cases hs : s = "" <;> simp [stepDelta, hc, hs, foldl_stepToolCall_data]

theorem foldl_stepDelta_keys (es : List Delta) (st : StreamState) :
    (es.foldl stepDelta st).keys =
      (fragmentsOf es).foldl
        (fun ks f => if f.index ∈ ks then ks else ks ++ [f.index]) st.keys := by
  induction es generalizing st with
  | nil => rfl
  | cons d ds ih =>
    rw [List.foldl_cons, ih, fragmentsOf_cons, List.foldl_append, stepDelta_keys]

theorem foldl_stepDelta_data (es : List Delta) (st : StreamState) :
    (es.foldl stepDelta st).data =
      (fragmentsOf es).foldl
        (fun d2 f => Function.update d2 f.index (applyFragment (d2 f.index) f))
        st.data := by
  induction es generalizing st with
  | nil => rfl
  | cons d ds ih =>
    rw [List.foldl_cons, ih, fragmentsOf_cons, List.foldl_append, stepDelta_data]

theorem kfold_mem (fs : List ToolCallFragment) (ks : List Nat) (a : Nat) :
    a ∈ fs.foldl (fun ks2 f => if f.index ∈ ks2 then ks2 else ks2 ++ [f.index]) ks ↔
      a ∈ ks ∨ a ∈ fs.map ToolCallFragment.index := by
  induction fs generalizing ks with
  | nil => simp
  | cons f fs ih =>
    rw [List.foldl_cons, ih, List.map_cons]
    by_cases h : f.index ∈ ks
    · rw [if_pos h]
      constructor
      · rintro (h1 | h1)
        · exact Or.inl h1
        · exact Or.inr (List.mem_cons_of_mem _ h1)
      · rintro (h1 | h1)
        · exact Or.inl h1
        · rcases List.mem_cons.mp h1 with h2 | h2
          · exact Or.inl (by rw [h2]; exact h)
          · exact Or.inr h2
    · rw [if_neg h]
      constructor
      · rintro (h1 | h1)
        · rcases List.mem_append.mp h1 with h2 | h2
          · exact Or.inl h2
          · exact Or.inr (List.mem_cons.mpr (Or.inl (List.mem_singleton.mp h2)))
        · exact Or.inr (List.mem_cons_of_mem _ h1)
      · rintro (h1 | h1)
        · exact Or.inl (List.mem_append.mpr (Or.inl h1))
        · rcases List.mem_cons.mp h1 with h2 | h2
          · exact Or.inl (List.mem_append.mpr (Or.inr (List.mem_singleton.mpr h2)))
          · exact Or.inr h2

theorem kfold_nodup (fs : List ToolCallFragment) (ks : List Nat)
    (h : ks.Nodup) :
    (fs.foldl (fun ks2 f => if f.index ∈ ks2 then ks2 else ks2 ++ [f.index]) ks).Nodup := by
  induction fs generalizing ks with
  | nil => exact h
  | cons f fs ih =>
    rw [List.foldl_cons]
    by_cases hf : f.index ∈ ks
    · rw [if_pos hf]
      exact ih ks h
    · rw [if_neg hf]
      refine ih _ ?_
      rw [List.nodup_append]
      exact ⟨h, List.nodup_singleton _, by simpa using hf⟩

theorem dfold_apply (fs : List ToolCallFragment) (d0 : Nat → ToolCallEntry)
    (i : Nat) :
    (fs.foldl (fun d2 f => Function.update d2 f.index (applyFragment (d2 f.index) f))
        d0) i =
      (fs.filter (fun f => f.index = i)).foldl applyFragment (d0 i) := by
  induction fs generalizing d0 with
  | nil => rfl
  | cons f fs ih =>
    rw [List.foldl_cons, ih, List.filter_cons]
    by_cases hf : f.index = i
    · rw [if_pos (by simpa using hf), List.foldl_cons]
      congr 1
      rw [Function.update_apply, if_pos hf.symm, hf]
    · rw [if_neg (by simpa using hf)]
      congr 1
      rw [Function.update_apply, if_neg (fun hc => hf hc.symm)]

theorem updId_fields (e : ToolCallEntry) (i : Option String) :
    updId e i = { e with id := match i with
                              | some s => if s = "" then e.id else s
                              | none => e.id } := by
  cases i with
  | none => rfl
  | some s => by_cases hs : s = "" <;> simp [updId, hs]

theorem updName_fields (e : ToolCallEntry) (n : Option String) :
    updName e n = { e with name := match n with
                                  | some s => if s = "" then e.name else s
                                  | none => e.name } := by
  cases n with
  | none => rfl
  | some s => by_cases hs : s = "" <;> simp [updName, hs]

theorem updArgs_fields (e : ToolCallEntry) (a : Option String) :
    updArgs e a = { e with arguments := e.arguments ++ a.getD "" } := by
  cases a with
  | none => simp [updArgs, str_append_empty]
  | some s => by_cases hs : s = "" <;> simp [updArgs, hs, str_append_empty]

theorem applyFragment_fields (e : ToolCallEntry) (g : ToolCallFragment) :
    applyFragment e g =
      ⟨(match g.id with
        | some s => if s = "" then e.id else s
        | none => e.id),
       e.type,
       (match nameTextOf g with
        | some s => if s = "" then e.name else s
        | none => e.name),
       e.arguments ++ argTextOf g⟩ := by
  cases hfn : g.function with
  | none =>
    simp only [applyFragment, hfn, updId_fields, nameTextOf, argTextOf,
      Option.bind, str_append_empty]
  | some fn =>
    simp only [applyFragment, hfn, updId_fields, updName_fields, updArgs_fields,
      nameTextOf, argTextOf, Option.bind]

theorem argConcat_append (gs : List ToolCallFragment) (g : ToolCallFragment) :
    argConcat (gs ++ [g]) = argConcat gs ++ argTextOf g := by
  unfold argConcat
  rw [List.map_append, List.foldl_append]
  rfl

theorem lastNonEmptyId_append (gs : List ToolCallFragment) (g : ToolCallFragment) :
    lastNonEmptyId (gs ++ [g]) =
      match g.id with
      | some s => if s = "" then lastNonEmptyId gs else s
      | none => lastNonEmptyId gs := by
  unfold lastNonEmptyId
  rw [List.filterMap_append, List.filter_append]
  cases hgid : g.id with
  | none => simp [hgid, str_append_empty]
  | some s =>
    by_cases hs : s = ""
    · simp [hgid, hs]
    · simp [hgid, hs, List.getLast?_concat]

theorem lastNonEmptyName_append (gs : List ToolCallFragment) (g : ToolCallFragment) :
    lastNonEmptyName (gs ++ [g]) =
      match nameTextOf g with
      | some s => if s = "" then lastNonEmptyName gs else s
      | none => lastNonEmptyName gs := by
  unfold lastNonEmptyName
  rw [List.filterMap_append, List.filter_append]
  cases hgn : nameTextOf g with
  | none => simp [hgn]
  | some s =>
    by_cases hs : s = ""
    · simp [hgn, hs]
    · simp [hgn, hs, List.getLast?_concat]

theorem applyFold_fields (gs : List ToolCallFragment) :
    gs.foldl applyFragment initEntry =
      ⟨lastNonEmptyId gs, "function", lastNonEmptyName gs, argConcat gs⟩ := by
  induction gs using List.reverseRecOn with
  | nil => rfl
  | append_singleton gs g ih =>
    rw [List.foldl_append, List.foldl_cons, List.foldl_nil, ih,
      applyFragment_fields, argConcat_append, lastNonEmptyId_append,
      lastNonEmptyName_append]

theorem runStream_data (es : List Delta) (i : Nat) :
    (runStream es).data i = specEntry es i := by
  unfold runStream
  rw [foldl_stepDelta_data, dfold_apply]
  exact applyFold_fields (slotFrags es i)

theorem runStream_keys_mem (es : List Delta) (a : Nat) :
    a ∈ (runStream es).keys ↔ a ∈ (fragmentsOf es).map ToolCallFragment.index := by
  unfold runStream
  rw [foldl_stepDelta_keys, kfold_mem]
  simp

theorem runStream_keys_nodup (es : List Delta) : (runStream es).keys.Nodup := by
  unfold runStream
  rw [foldl_stepDelta_keys]
  exact kfold_nodup _ _ List.nodup_nil

theorem slotIndexList_mem (es : List Delta) (a : Nat) :
    a ∈ slotIndexList es ↔ a ∈ (fragmentsOf es).map ToolCallFragment.index := by
  unfold slotIndexList
  rw [(List.perm_insertionSort _ _).mem_iff, List.mem_dedup]

theorem sorted_keys_eq (es : List Delta) :
    List.insertionSort (· ≤ ·) (runStream es).keys = slotIndexList es := by
  unfold slotIndexList
  apply List.eq_of_perm_of_sorted (r := (· ≤ ·))
  · have hperm : List.Perm (runStream es).keys
        ((fragmentsOf es).map ToolCallFragment.index).dedup := by
      rw [List.perm_ext_iff_of_nodup (runStream_keys_nodup es) (List.nodup_dedup _)]
      intro a
      rw [runStream_keys_mem, List.mem_dedup]
    exact (List.perm_insertionSort _ _).trans
      (hperm.trans (List.perm_insertionSort _ _).symm)
  · exact List.sorted_insertionSort _ _
  · exact List.sorted_insertionSort _ _

/-- C1: for every fragment sequence, the aggregated assistant message's
tool-call list is exactly the per-slot reconstruction in ascending
slot-index order — absent when no tool-call fragment arrived, and otherwise
one entry per distinct slot index where the argument text is the
arrival-order concatenation of that slot's argument fragments and the
identifier and tool name are the last non-empty values streamed for that
slot — and the slot index enumeration is strictly ascending. -/
theorem stream_aggregator_reconstruction (es : List Delta) :
    ((streamResponseMsg es).tool_calls =
      if slotIndexList es = [] then none
      else some ((slotIndexList es).map (specEntry es))) ∧
    List.Sorted (· < ·) (slotIndexList es) := by
  constructor
  · have hkeys_nil : ((runStream es).keys = []) ↔ (slotIndexList es = []) := by
      rw [List.eq_nil_iff_forall_not_mem, List.eq_nil_iff_forall_not_mem]
      exact forall_congr' (fun a =>
        not_congr ((runStream_keys_mem es a).trans (slotIndexList_mem es a).symm))
    show (if (runStream es).keys = [] then none
          else some ((List.insertionSort (· ≤ ·) (runStream es).keys).map
            (runStream es).data)) = _
    by_cases hk : (runStream es).keys = []
    · rw [if_pos hk, if_pos (hkeys_nil.mp hk)]
    · rw [if_neg hk, if_neg (fun hc => hk (hkeys_nil.mpr hc)), sorted_keys_eq,
        funext (runStream_data es)]
  · have hs : List.Sorted (· ≤ ·) (slotIndexList es) :=
      List.sorted_insertionSort _ _
    have hn : (slotIndexList es).Nodup :=
      (List.perm_insertionSort _ _).nodup_iff.mpr (List.nodup_dedup _)
    exact (hs.and hn).imp (fun hab => lt_of_le_of_ne hab.1 hab.2)
